import Mathlib

/-!
Verification of the H-Mem bAbI single-task script (`babi_task_single.py`)
against its natural-language specification.

The repository ships only the top-level script; the layer modules
(`layers/writing.py`, `layers/reading.py`, `layers/encoding.py`) and the
data module (`data/babi_data.py`) are imported by the script but their
sources are not present.  Definitions for those parts are modelled from
the specification text and are marked `Modelled from the spec:` in their
doc comments.  Everything else is translated directly from
`babi_task_single.py`.
-/

namespace HMem

/-- A length-`n` vector of rationals (embedding of a dense float vector). -/
abbrev Vec (n : ℕ) := Fin n → ℚ

/-- An `m × e` memory matrix (`m` = memory_size slots, `e` = embeddings_size). -/
abbrev Mem (m e : ℕ) := Fin m → Fin e → ℚ

/-- The all-zeros memory matrix (the initial write-recurrence state:
"initialized to zeros at the start of each story"). -/
def zeroMem (m e : ℕ) : Mem m e := fun _ _ => 0

/-- Elementwise clipping to the interval `[-b, b]`
(embedding of `tf.clip_by_value(x, -b, b)`). -/
def clip (b x : ℚ) : ℚ := max (-b) (min x b)

/-- Modelled from the spec: the WritingCell configuration and its learned /
derived sub-computations (`layers/writing.py` is not in the sources).
Spec §4.3: per step the cell optionally performs a read-style retrieval
against the current memory (`read_before_write`), computes an
association-strength gate and a novelty gate (shaped by
`gamma_pos`/`gamma_neg`), and a context-derived `target` vector.  The
exact gate formulas are not pinned down by the spec (§9 notes the
binding formula is underspecified), so they are carried as arbitrary
functions of the incoming entity vector, the retrieved ("predicted")
content and the current memory; every claim below is proved for all
such gate functions. -/
structure WritingCell (m e : ℕ) where
  read_before_write : Bool
  gamma_pos : ℚ
  gamma_neg : ℚ
  w_assoc_max : ℚ
  att : Mem m e → Vec m → Vec m
  write_gate : Vec m → Vec e → Mem m e → Vec m
  decay_gate : Vec m → Vec e → Mem m e → Vec m
  target : Vec m → Vec e → Mem m e → Vec e

/-- Modelled from the spec: read-style retrieval against the current memory
state (spec §4.3 step 1 / §4.4 step 2): attention weights over the `m`
memory rows, then a weighted combination of the rows. -/
def WritingCell.retrieve {m e : ℕ} (c : WritingCell m e) (M : Mem m e) (q : Vec m) :
    Vec e :=
  fun j => ∑ i : Fin m, c.att M q i * M i j

/-- Modelled from the spec: the "predicted" content vector of spec §4.3
step 1: computed by retrieval when `read_before_write` is set, and skipped
(zero) otherwise. -/
def WritingCell.predicted {m e : ℕ} (c : WritingCell m e) (M : Mem m e) (u : Vec m) :
    Vec e :=
  if c.read_before_write then c.retrieve M u else fun _ => 0

/-- Modelled from the spec: one WritingCell step (spec §4.3 step 4):
`M_new = M_old + write_gate ⊙ (entity ⊗ target) − decay_gate ⊙ M_old`,
with every entry clipped elementwise to `[-w_assoc_max, +w_assoc_max]`. -/
def WritingCell.step {m e : ℕ} (c : WritingCell m e) (M : Mem m e) (u : Vec m) :
    Mem m e :=
  let p := c.predicted M u
  let wg := c.write_gate u p M
  let dg := c.decay_gate u p M
  let t := c.target u p M
  fun i j => clip c.w_assoc_max (M i j + wg i * (u i * t j) - dg i * M i j)

/-- The write recurrence scanned over the story's sentence axis
(`tf.keras.layers.RNN(WritingCell(...))` in `babi_task_single.py`):
the list of memory states after each step, starting from state `M`. -/
def WritingCell.scan {m e : ℕ} (c : WritingCell m e) (M : Mem m e) :
    List (Vec m) → List (Mem m e)
  | [] => []
  | u :: us =>
    let M1 := c.step M u
    M1 :: c.scan M1 us

/-- A concrete WritingCell instance used to witness the general theorems:
memory_size = 1, embeddings_size = 1, simple concrete gates. -/
def cellNoRead : WritingCell 1 1 where
  read_before_write := false
  gamma_pos := 1/100
  gamma_neg := 1/100
  w_assoc_max := 1
  att := fun _ q => q
  write_gate := fun u _ _ => u
  decay_gate := fun _ _ _ i => (1 : ℚ)/2 * i.val
  target := fun u _ _ _ => u 0

/-- A concrete WritingCell instance with `read_before_write` enabled,
used to witness the zero-input invariant for that flag setting. -/
def cellWithRead : WritingCell 1 1 where
  read_before_write := true
  gamma_pos := 1/100
  gamma_neg := 1/100
  w_assoc_max := 1
  att := fun _ q => q
  write_gate := fun u _ _ => u
  decay_gate := fun _ _ _ i => (1 : ℚ)/2 * i.val
  target := fun u _ _ _ => u 0

/-- The vectorized query batch replicated across the hop axis
(`np.repeat(np.expand_dims(trainQ, axis=1), args.hops, axis=1)` in
`babi_task_single.py`): each example's query row becomes `hops` identical
copies, giving a `(batch, hops, max_words)` tensor. -/
def queryTensor (hops : ℕ) (q : List (List ℕ)) : List (List (List ℕ)) :=
  q.map (fun row => List.replicate hops row)

/-- Modelled from the spec: the ReadingCell's learned sub-computations
(`layers/reading.py` is not in the sources).  Spec §4.4: step 1 computes
attention weights over the `m` memory rows from the current query
representation, step 3 combines the previous query representation, the
retrieved content and the hop's query embedding via a dense+nonlinear
transform.  Both are carried as arbitrary functions. -/
structure ReadingCell (m e : ℕ) where
  att : Mem m e → Vec e → Vec m
  combine : Vec e → Vec e → Vec e → Vec e

/-- Modelled from the spec: one ReadingCell hop (spec §4.4): attention
weights over memory rows, weighted retrieval of the rows, then the
combining transform of previous state, retrieved content and this hop's
query embedding. -/
def ReadingCell.step {m e : ℕ} (r : ReadingCell m e) (M : Mem m e) (s : Vec e)
    (q : Vec e) : Vec e :=
  let a := r.att M s
  let retrieved : Vec e := fun j => ∑ i : Fin m, a i * M i j
  r.combine s retrieved q

/-- The read recurrence scanned over the hop axis
(`tf.keras.layers.RNN(ReadingCell(...))(query_encoded, constants=[memory_matrix])`
in `babi_task_single.py`): the list of internal states, one per hop input. -/
def ReadingCell.states {m e : ℕ} (r : ReadingCell m e) (M : Mem m e) (s : Vec e) :
    List (Vec e) → List (Vec e)
  | [] => []
  | q :: qs =>
    let s1 := r.step M s q
    s1 :: r.states M s1 qs

/-- The single output vector of the read recurrence: the final hop's state
(a Keras RNN without `return_sequences` returns only the last output). -/
def ReadingCell.output {m e : ℕ} (r : ReadingCell m e) (M : Mem m e) (s : Vec e)
    (qs : List (Vec e)) : Vec e :=
  (r.states M s qs).getLastD s

/-- The constant-zero query embedding, used in witnesses. -/
def qembZero : List ℕ → Vec 1 := fun _ _ => 0

/-- A concrete ReadingCell instance used to witness the general theorems. -/
def readerK : ReadingCell 1 1 where
  att := fun M s i => M i 0 * s 0
  combine := fun s retrieved q k => s k + retrieved k + q k

/-- The learning-rate schedule of `babi_task_single.py` (`lr_scheduler`).
`rexp` stands for the host framework's `tf.math.exp`; the exponent of the
step-decay branch is `⌊epoch / 20⌋` (natural-number division), matching
`tf.math.floor(epoch / 20)` on nonnegative integer epochs. -/
def lr_scheduler (rexp : ℚ → ℚ) (read_before_write : Bool) (learning_rate : ℚ)
    (epoch : ℕ) : ℚ :=
  if read_before_write then
    if epoch < 150 then learning_rate
    else learning_rate * rexp (1/100 * (150 - (epoch : ℚ)))
  else
    learning_rate * (85/100) ^ (epoch / 20)

/-- Modelled from the spec: the error raised on an invalid configuration
option (spec §7: "Invalid `encodings_type` fails fast at construction
(ConfigurationError)"). -/
structure ConfigurationError where
  msg : String

/-- The three recognized encoding variants (spec §4.1). -/
inductive EncodingsType
  | identity_encoding
  | position_encoding
  | learned_encoding

/-- Modelled from the spec: construction of the Encoding layer
(`layers/encoding.py` is not in the sources) dispatches on the
`encodings_type` string and fails fast with a ConfigurationError when it
is not one of the three recognized values; no fallback is applied. -/
def Encoding (encodings_type : String) : Except ConfigurationError EncodingsType :=
  if encodings_type = "identity_encoding" then Except.ok EncodingsType.identity_encoding
  else if encodings_type = "position_encoding" then Except.ok EncodingsType.position_encoding
  else if encodings_type = "learned_encoding" then Except.ok EncodingsType.learned_encoding
  else Except.error ⟨"Unknown encodings type."⟩

/-- Positionally weighted sum of word vectors, accumulating the word
position `l`: used by both the fixed positional and the learned encoding.
Returns the zero vector on the empty sentence. -/
def weightedSumFrom (E : ℕ) (wt : ℕ → Fin E → ℚ) : ℕ → List (Vec E) → Vec E
  | _, [] => fun _ => 0
  | l, v :: vs => fun j => wt l j * v j + weightedSumFrom E wt (l + 1) vs j

/-- Modelled from the spec: the classic fixed position-encoding weight for
word position `l` (0-based) and component `j` (0-based) in a sentence of
`L` words with embedding size `E` — a non-learned function of position and
sentence length only (spec §4.1). -/
def posWeight (E L l j : ℕ) : ℚ :=
  (1 - (l + 1 : ℚ) / (L : ℚ)) - ((j + 1 : ℚ) / (E : ℚ)) * (1 - 2 * (l + 1 : ℚ) / (L : ℚ))

/-- Modelled from the spec: `position_encoding` applies the fixed positional
weighting to each word embedding and sums across words, producing one
vector per sentence (spec §4.1). -/
def positionEncoding (E : ℕ) (x : List (Vec E)) : Vec E :=
  weightedSumFrom E (fun l j => posWeight E x.length l j) 0 x

/-- Modelled from the spec: `learned_encoding` applies a trainable
elementwise weighting vector `w l` per word-position slot before summation
across words (spec §4.1). -/
def learnedEncoding (E : ℕ) (w : ℕ → Vec E) (x : List (Vec E)) : Vec E :=
  weightedSumFrom E (fun l j => w l j) 0 x

/-- Modelled from the spec: applying a constructed Encoding layer to an
embedded sentence.  `identity_encoding` returns the input unchanged; the
other two variants produce a single summed vector.  `w` is the trainable
per-position weight used only by `learned_encoding`. -/
def encodingApply (E : ℕ) (w : ℕ → Vec E) :
    EncodingsType → List (Vec E) → List (Vec E)
  | EncodingsType.identity_encoding, x => x
  | EncodingsType.position_encoding, x => [positionEncoding E x]
  | EncodingsType.learned_encoding, x => [learnedEncoding E w x]

/-- One bAbI example as loaded by `load_task`: a story (list of sentences,
each a list of words), a query (list of words) and an answer (list of
words). -/
abbrev Example := List (List String) × List String × List String

/-- All words occurring in the data
(`set(list(chain.from_iterable(s)) + q + a) for s, q, a in data`, unioned
over the examples, before deduplication and sorting). -/
def allWords (data : List Example) : List String :=
  (data.map (fun x => x.1.flatten ++ x.2.1 ++ x.2.2)).flatten

/-- Lexicographic comparison of `Char` lists by code point (the string
order used by Python's `sorted`). -/
def lexLe : List Char → List Char → Bool
  | [], _ => true
  | _ :: _, [] => false
  | a :: as, b :: bs =>
    if a.val < b.val then true else if b.val < a.val then false else lexLe as bs

/-- String comparison by code-point-lexicographic order. -/
def strLe (a b : String) : Bool := lexLe a.toList b.toList

/-- Insert a string into a sorted list of strings. -/
def insertSorted (a : String) : List String → List String
  | [] => [a]
  | b :: bs => if strLe a b then a :: b :: bs else b :: insertSorted a bs

/-- Sort a list of strings ascending (Python's `sorted`). -/
def sortStrings : List String → List String
  | [] => []
  | a :: as => insertSorted a (sortStrings as)

/-- The sorted deduplicated vocabulary of the combined train+test data
(`vocab = sorted(reduce(lambda x, y: x | y, ...))` in
`babi_task_single.py`). -/
def vocab (data : List Example) : List String :=
  sortStrings (allWords data).dedup

/-- A Python-dict value in `word_idx`: either an integer index or a string
(the loop adding time words stores the token string itself as the value). -/
abbrev WVal := ℕ ⊕ String

/-- The enumeration dictionary `dict((c, i + 1) for i, c in enumerate(v))`
as an association list, starting the enumeration at index `i`. -/
def enumAssoc : ℕ → List String → List (String × WVal)
  | _, [] => []
  | i, c :: cs => (c, Sum.inl (i + 1)) :: enumAssoc (i + 1) cs

/-- `word_idx = dict((c, i + 1) for i, c in enumerate(vocab))` in
`babi_task_single.py`. -/
def word_idx_base (data : List Example) : List (String × WVal) :=
  enumAssoc 0 (vocab data)

/-- Python-dict insertion on an association list: overwrite the first
entry with the given key in place, else append a new entry. -/
def dictInsert : List (String × WVal) → String → WVal → List (String × WVal)
  | [], k, v => [(k, v)]
  | p :: ps, k, v => if p.1 = k then (k, v) :: ps else p :: dictInsert ps k v

/-- Python-dict lookup on an association list. -/
def dictLookup : List (String × WVal) → String → Option WVal
  | [], _ => none
  | p :: ps, k => if p.1 = k then some p.2 else dictLookup ps k

/-- The synthetic time token `'time{}'.format(i)`. -/
def timeWord (i : ℕ) : String := "time" ++ toString i

/-- The final `word_idx` after the loop
`for i in range(max_num_sentences): word_idx['time{}'.format(i+1)] = 'time{}'.format(i+1)`
in `babi_task_single.py`: note the stored value is the token string itself. -/
def word_idx (data : List Example) (maxn : ℕ) : List (String × WVal) :=
  (List.range maxn).foldl
    (fun d i => dictInsert d (timeWord (i + 1)) (Sum.inr (timeWord (i + 1))))
    (word_idx_base data)

/-- `vocab_size = len(word_idx) + 1  # +1 for nil word.` (line 86, computed
after the time words were added). -/
def vocab_size (data : List Example) (maxn : ℕ) : ℕ :=
  (word_idx data maxn).length + 1

/-- Modelled from the spec: the output projection
`Dense(vocab_size, use_bias=False)` (a host-framework layer): one logit per
vocabulary entry, giving a `(batch, vocab_size)` logit vector per example. -/
def denseLogits {e : ℕ} (v : ℕ) (W : ℕ → Vec e → ℚ) (x : Vec e) : List ℚ :=
  (List.range v).map (fun j => W j x)

/-- `max_story_size = max(map(len, (s for s, _, _ in data)))` in
`babi_task_single.py` (Python's `max` over the story lengths; the fold
equals it whenever the data is nonempty, which Python requires). -/
def max_story_size (data : List Example) : ℕ :=
  (data.map (fun x => x.1.length)).foldl Nat.max 0

/-- The effective maximum sentence count
(`max_num_sentences = max_story_size if args.max_num_sentences == -1 else
min(args.max_num_sentences, max_story_size)` in `babi_task_single.py`).
`flag` is the raw `--max_num_sentences` command-line value. -/
def max_num_sentences (flag : ℤ) (mss : ℕ) : ℤ :=
  if flag = -1 then (mss : ℤ) else min flag (mss : ℤ)

/-- `max_sentence_size = max(map(len, chain.from_iterable(...))) + 1` in
`babi_task_single.py` (`+1` reserving the slot for the time word). -/
def max_sentence_size (data : List Example) : ℕ :=
  (((data.map (fun x => x.1)).flatten).map List.length).foldl Nat.max 0 + 1

/-- `max_query_size = max(map(len, (q for _, q, _ in data)))` in
`babi_task_single.py`. -/
def max_query_size (data : List Example) : ℕ :=
  (data.map (fun x => x.2.1.length)).foldl Nat.max 0

/-- `max_words = max(max_sentence_size, max_query_size)` in
`babi_task_single.py`: the single shared per-row word length used for both
story sentences and queries. -/
def max_words (data : List Example) : ℕ :=
  max (max_sentence_size data) (max_query_size data)

/-- Modelled from the spec: padding of one row of word indices to the fixed
length `n` with the reserved nil index 0 (spec §3: "fixed-length (padded)
sequence of word indices"). -/
def padRow (n : ℕ) (row : List ℕ) : List ℕ :=
  row.take n ++ List.replicate (n - row.length) 0

/-- Modelled from the spec: `vectorize_data` (from `data/babi_data.py`, not
in the sources).  Spec §3: each sentence becomes a fixed-length padded row
of word indices, stories are padded/truncated to the fixed max sentence
count, and each query becomes a fixed-length padded row; called in
`babi_task_single.py` with both the sentence size and the query size equal
to `max_words`.  Returns the vectorized stories and queries. -/
def vectorize_data (widx : String → ℕ) (max_n sentence_size query_size : ℕ)
    (data : List Example) : List (List (List ℕ)) × List (List ℕ) :=
  (data.map (fun x =>
      ((x.1.take max_n).map (fun sent => padRow sentence_size (sent.map widx)))
        ++ List.replicate (max_n - x.1.length) (List.replicate sentence_size 0)),
   data.map (fun x => padRow query_size (x.2.1.map widx)))

/-- A tiny concrete data set (one example) used in witnesses and
counterexamples. -/
def exData : List Example :=
  [([["john", "went"], ["mary"]], ["where", "is", "john"], ["kitchen"])]

/-- The entry-wise clipping keeps magnitudes at most `b` whenever `0 ≤ b`. -/
theorem abs_clip_le {b : ℚ} (hb : 0 ≤ b) (x : ℚ) : |clip b x| ≤ b := by
  rw [abs_le]
  constructor
  · exact le_max_left _ _
  · exact max_le (neg_le_self hb) (min_le_right _ _)

/-- Every entry of a WritingCell step output is clipped, hence bounded. -/
theorem step_entry_bounded {m e : ℕ} (c : WritingCell m e) (hb : 0 ≤ c.w_assoc_max)
    (M : Mem m e) (u : Vec m) (i : Fin m) (j : Fin e) :
    |c.step M u i j| ≤ c.w_assoc_max := by
  unfold WritingCell.step
  exact abs_clip_le hb _

/-- C1: for every valid configuration (`w_assoc_max > 0`), every gate
realization, every starting state and every sequence of entity vectors
(of arbitrary magnitude), every entry of every memory matrix produced by
the WritingCell scan lies within `[-w_assoc_max, +w_assoc_max]`: the
clipping makes the bound hold after every write, not only at the end. -/
theorem writing_memory_bounded {m e : ℕ} (c : WritingCell m e)
    (hb : 0 < c.w_assoc_max) (M0 : Mem m e) (es : List (Vec m)) :
    ∀ M ∈ c.scan M0 es, ∀ i j, |M i j| ≤ c.w_assoc_max := by
  induction es generalizing M0 with
  | nil => intro M hM; cases hM
  | cons u us ih =>
    intro M hM i j
    rcases List.mem_cons.mp hM with h | h
    · subst h
      exact step_entry_bounded c hb.le M0 u i j
    · exact ih (c.step M0 u) M h i j

/-- Witness for C1: the concrete cell `cellNoRead` (with `w_assoc_max = 1`),
fed one entity vector of magnitude 1000, yields a first memory state whose
(0,0) entry has magnitude at most 1. -/
theorem writing_memory_bounded_witness :
    0 < cellNoRead.w_assoc_max ∧
      |cellNoRead.step (zeroMem 1 1) (fun _ => 1000) 0 0| ≤ cellNoRead.w_assoc_max :=
  ⟨by norm_num [cellNoRead],
   writing_memory_bounded cellNoRead (by norm_num [cellNoRead]) (zeroMem 1 1)
     [fun _ => 1000] (cellNoRead.step (zeroMem 1 1) (fun _ => 1000))
     (List.mem_singleton.mpr rfl) 0 0⟩

/-- A WritingCell step on the all-zero entity vector from the all-zero
memory returns the all-zero memory, for any gates and either flag. -/
theorem step_zero_zero {m e : ℕ} (c : WritingCell m e) (hb : 0 ≤ c.w_assoc_max)
    (u : Vec m) (hu : u = fun _ => 0) :
    c.step (zeroMem m e) u = zeroMem m e := by
  subst hu
  funext i j
  show clip c.w_assoc_max _ = 0
  have h0 : zeroMem m e i j = 0 := rfl
  simp only [zeroMem, zero_mul, mul_zero, add_zero, zero_add, sub_zero, zero_sub, neg_zero]
  unfold clip
  rw [min_eq_left hb, max_eq_right (neg_nonpos.mpr hb)]

/-- C2: for both settings of `read_before_write` (the cell `c` is arbitrary,
so in particular its flag is), if every entity vector of the story is the
zero vector then, starting from the zero-initialized memory, the memory
matrix after every WritingCell step is the zero matrix. -/
theorem writing_zero_input {m e : ℕ} (c : WritingCell m e)
    (hb : 0 < c.w_assoc_max) (es : List (Vec m)) (hes : ∀ u ∈ es, u = fun _ => 0) :
    ∀ M ∈ c.scan (zeroMem m e) es, M = zeroMem m e := by
  induction es with
  | nil => intro M hM; cases hM
  | cons u us ih =>
    intro M hM
    have hu : u = fun _ => 0 := hes u (List.mem_cons_self u us)
    have hstep : c.step (zeroMem m e) u = zeroMem m e := step_zero_zero c hb.le u hu
    rcases List.mem_cons.mp hM with h | h
    · subst h; rw [hstep]
    · exact ih (fun v hv => hes v (List.mem_cons_of_mem u hv)) M (by rwa [hstep] at h)

/-- Witness for C2: the concrete `read_before_write = true` cell
`cellWithRead`, fed a story of two zero entity vectors, has a zero memory
matrix after the first step. -/
theorem writing_zero_input_witness :
    0 < cellWithRead.w_assoc_max ∧
      cellWithRead.step (zeroMem 1 1) (fun _ => 0) = zeroMem 1 1 :=
  ⟨by norm_num [cellWithRead],
   writing_zero_input cellWithRead (by norm_num [cellWithRead])
     [fun _ => 0, fun _ => 0]
     (by intro u hu; rcases List.mem_cons.mp hu with h | h
         · exact h
         · exact List.mem_singleton.mp h)
     (cellWithRead.step (zeroMem 1 1) (fun _ => 0))
     (List.mem_cons_self _ _)⟩

/-- Row `b` of the replicated query tensor is `hops` copies of example `b`'s
original vectorized query row. -/
theorem queryTensor_getD (k : ℕ) (Q : List (List ℕ)) (b : ℕ) (hb : b < Q.length) :
    (queryTensor k Q).getD b [] = List.replicate k (Q.getD b []) := by
  induction Q generalizing b with
  | nil => cases hb
  | cons q qs ih =>
    cases b with
    | zero => rfl
    | succ n => exact ih n (Nat.lt_of_succ_lt_succ hb)

/-- Indexing a replicated list below its length yields the replicated value. -/
theorem replicate_getD {α : Type} (k h : ℕ) (a d : α) (hh : h < k) :
    (List.replicate k a).getD h d = a := by
  induction k generalizing h with
  | zero => cases hh
  | succ n ih =>
    cases h with
    | zero => rfl
    | succ j => exact ih j (Nat.lt_of_succ_lt_succ hh)

/-- The read recurrence produces exactly one internal state per hop input. -/
theorem states_length {m e : ℕ} (r : ReadingCell m e) (M : Mem m e) (s : Vec e)
    (qs : List (Vec e)) : (r.states M s qs).length = qs.length := by
  induction qs generalizing s with
  | nil => rfl
  | cons q qs ih =>
    show _ + 1 = _ + 1
    rw [ih]

/-- C3: the replicated query tensor has one row group per example and `hops`
rows per group; for every example `b` and hop indices `h1, h2`, rows
`(b, h1)` and `(b, h2)` both equal the original vectorized query row; hence
the ReadingCell recurrence over the hop axis receives an identical embedded
query input at every step, runs exactly `hops` sequential steps, and its
output is the single final-state vector. -/
theorem query_tensor_hops (k : ℕ) (Q : List (List ℕ)) (L b h1 h2 : ℕ)
    (hq : ∀ q ∈ Q, q.length = L)
    (hb : b < Q.length) (h1k : h1 < k) (h2k : h2 < k)
    {m e : ℕ} (r : ReadingCell m e) (M : Mem m e) (s0 : Vec e)
    (qemb : List ℕ → Vec e) :
    (queryTensor k Q).length = Q.length ∧
    ((queryTensor k Q).getD b []).length = k ∧
    (((queryTensor k Q).getD b []).getD h1 []).length = L ∧
    ((queryTensor k Q).getD b []).getD h1 [] = Q.getD b [] ∧
    ((queryTensor k Q).getD b []).getD h1 [] = ((queryTensor k Q).getD b []).getD h2 [] ∧
    (∀ x ∈ (((queryTensor k Q).getD b []).map qemb), x = qemb (Q.getD b [])) ∧
    (r.states M s0 (((queryTensor k Q).getD b []).map qemb)).length = k ∧
    r.output M s0 (((queryTensor k Q).getD b []).map qemb) =
      (r.states M s0 (((queryTensor k Q).getD b []).map qemb)).getLastD s0 := by
  have hrow : (queryTensor k Q).getD b [] = List.replicate k (Q.getD b []) :=
    queryTensor_getD k Q b hb
  have hmem : Q.getD b [] ∈ Q := by
    rw [List.getD_eq_getElem Q [] hb]
    exact List.getElem_mem hb
  refine ⟨by simp [queryTensor], ?_, ?_, ?_, ?_, ?_, ?_, rfl⟩
  · rw [hrow, List.length_replicate]
  · rw [hrow, replicate_getD k h1 _ _ h1k]
    exact hq _ hmem
  · rw [hrow]; exact replicate_getD k h1 _ _ h1k
  · rw [hrow, replicate_getD k h1 _ _ h1k, replicate_getD k h2 _ _ h2k]
  · rw [hrow, List.map_replicate]
    intro x hx
    exact List.eq_of_mem_replicate hx
  · rw [hrow, states_length, List.length_map, List.length_replicate]

/-- Witness for C3 at `hops = 3`, `Q = [[1,2],[3,4]]` (rows of shared
length 2), `b = 0`, `h1 = 0`, `h2 = 2`, with the concrete reader `readerK`
on a zero memory. -/
theorem query_tensor_hops_witness :
    (queryTensor 3 [[1,2],[3,4]]).length = [[1,2],[3,4]].length ∧
    ((queryTensor 3 [[1,2],[3,4]]).getD 0 []).length = 3 ∧
    (((queryTensor 3 [[1,2],[3,4]]).getD 0 []).getD 0 []).length = 2 ∧
    ((queryTensor 3 [[1,2],[3,4]]).getD 0 []).getD 0 [] = [[1,2],[3,4]].getD 0 [] ∧
    ((queryTensor 3 [[1,2],[3,4]]).getD 0 []).getD 0 [] =
      ((queryTensor 3 [[1,2],[3,4]]).getD 0 []).getD 2 [] ∧
    (∀ x ∈ (((queryTensor 3 [[1,2],[3,4]]).getD 0 []).map qembZero),
      x = fun _ => (0:ℚ)) ∧
    (readerK.states (zeroMem 1 1) (fun _ => 0)
      (((queryTensor 3 [[1,2],[3,4]]).getD 0 []).map qembZero)).length = 3 ∧
    readerK.output (zeroMem 1 1) (fun _ => 0)
      (((queryTensor 3 [[1,2],[3,4]]).getD 0 []).map qembZero) =
      (readerK.states (zeroMem 1 1) (fun _ => 0)
        (((queryTensor 3 [[1,2],[3,4]]).getD 0 []).map qembZero)).getLastD
        (fun _ => 0) :=
  query_tensor_hops 3 [[1,2],[3,4]] 2 0 0 2 (by decide) (by norm_num) (by norm_num)
    (by norm_num) readerK (zeroMem 1 1) (fun _ => 0) qembZero

/-- C4: the learning-rate schedule is selected by `read_before_write`:
when enabled it returns the base rate for `epoch < 150` and
`learning_rate * exp(0.01 * (150 - epoch))` for `epoch ≥ 150`; when
disabled it returns `learning_rate * 0.85 ^ ⌊epoch / 20⌋`. -/
theorem lr_scheduler_spec (rexp : ℚ → ℚ) (lr : ℚ) (epoch : ℕ) :
    (epoch < 150 → lr_scheduler rexp true lr epoch = lr) ∧
    (150 ≤ epoch →
      lr_scheduler rexp true lr epoch = lr * rexp (1/100 * (150 - (epoch : ℚ)))) ∧
    lr_scheduler rexp false lr epoch = lr * (85/100) ^ (epoch / 20) := by
  refine ⟨fun h => ?_, fun h => ?_, rfl⟩
  · simp [lr_scheduler, h]
  · simp [lr_scheduler, Nat.not_lt.mpr h]

/-- Witness for C4 at epochs 10, 200 and 45 with `rexp = id`, `lr = 1`. -/
theorem lr_scheduler_spec_witness :
    lr_scheduler id true 1 10 = 1 ∧
    lr_scheduler id true 1 200 = 1 * id (1/100 * (150 - (200 : ℚ))) ∧
    lr_scheduler id false 1 45 = 1 * ((85:ℚ)/100) ^ (45 / 20) :=
  ⟨(lr_scheduler_spec id 1 10).1 (by norm_num),
   (lr_scheduler_spec id 1 200).2.1 (by norm_num),
   (lr_scheduler_spec id 1 45).2.2⟩

/-- C6: constructing the Encoding layer with an `encodings_type` value
outside the three recognized ones yields a ConfigurationError at
construction (before any data is processed), and no fallback encoding is
silently applied (no `ok` result exists). -/
theorem encoding_invalid_type_errors (s : String)
    (h1 : s ≠ "identity_encoding") (h2 : s ≠ "position_encoding")
    (h3 : s ≠ "learned_encoding") :
    (∃ err, Encoding s = Except.error err) ∧ ∀ t, Encoding s ≠ Except.ok t := by
  unfold Encoding
  rw [if_neg h1, if_neg h2, if_neg h3]
  exact ⟨⟨_, rfl⟩, fun t h => Except.noConfusion h⟩

/-- Witness for C6 at the invalid value `"bogus_encoding"`. -/
theorem encoding_invalid_type_errors_witness :
    (∃ err, Encoding "bogus_encoding" = Except.error err) ∧
      ∀ t, Encoding "bogus_encoding" ≠ Except.ok t :=
  encoding_invalid_type_errors "bogus_encoding" (by decide) (by decide) (by decide)

/-- C7: the Encoding layer configured with `identity_encoding` returns an
output identical in shape and values to its input, for every input and
every trainable-weight state. -/
theorem identity_encoding_passthrough {E : ℕ} (w : ℕ → Vec E) (x : List (Vec E)) :
    encodingApply E w EncodingsType.identity_encoding x = x := rfl

/-- C8: the Encoding layer in `position_encoding` mode is deterministic and
parameter-free: two invocations on equal inputs — even under different
trainable-weight states `w1`, `w2`, which the positional weighting does not
consult — produce equal outputs. -/
theorem position_encoding_deterministic {E : ℕ} (w1 w2 : ℕ → Vec E)
    (x y : List (Vec E)) (hxy : x = y) :
    encodingApply E w1 EncodingsType.position_encoding x
      = encodingApply E w2 EncodingsType.position_encoding y := by
  subst hxy
  rfl

/-- Witness for C8: two invocations on the same one-word sentence with two
different weight states agree. -/
theorem position_encoding_deterministic_witness :
    encodingApply 1 (fun _ _ => 5) EncodingsType.position_encoding [fun _ => 3]
      = encodingApply 1 (fun _ _ => 7) EncodingsType.position_encoding [fun _ => 3] :=
  position_encoding_deterministic (fun _ _ => 5) (fun _ _ => 7)
    [fun _ => 3] [fun _ => 3] rfl

/-- The start value is below a `Nat.max` fold. -/
theorem le_foldl_max (l : List ℕ) (a : ℕ) : a ≤ l.foldl Nat.max a := by
  induction l generalizing a with
  | nil => exact le_refl a
  | cons x xs ih => exact le_trans (Nat.le_max_left a x) (ih (Nat.max a x))

/-- Every list element is below a `Nat.max` fold over the list. -/
theorem mem_le_foldl_max (l : List ℕ) (a : ℕ) : ∀ x ∈ l, x ≤ l.foldl Nat.max a := by
  induction l generalizing a with
  | nil => intro x hx; cases hx
  | cons y ys ih =>
    intro x hx
    rcases List.mem_cons.mp hx with h | h
    · subst h
      exact le_trans (Nat.le_max_right a x) (le_foldl_max ys (Nat.max a x))
    · exact ih (Nat.max a y) x h

/-- A `Nat.max` fold is attained: it is the start value or a list element. -/
theorem foldl_max_mem (l : List ℕ) (a : ℕ) :
    l.foldl Nat.max a = a ∨ l.foldl Nat.max a ∈ l := by
  induction l generalizing a with
  | nil => exact Or.inl rfl
  | cons x xs ih =>
    have hmc : Nat.max a x = a ∨ Nat.max a x = x := by
      rcases le_total a x with hax | hxa
      · exact Or.inr (Nat.max_eq_right hax)
      · exact Or.inl (Nat.max_eq_left hxa)
    rcases ih (Nat.max a x) with h | h
    · rcases hmc with h2 | h2
      · left
        show xs.foldl Nat.max (Nat.max a x) = a
        rw [h, h2]
      · right
        show xs.foldl Nat.max (Nat.max a x) ∈ x :: xs
        rw [h, h2]
        exact List.mem_cons_self x xs
    · exact Or.inr (List.mem_cons_of_mem x h)

/-- C9: the effective maximum sentence count equals the longest-story
length when the `--max_num_sentences` flag is `-1`, and
`min(flag, longest)` otherwise; in particular it never exceeds the longest
story length (`max_story_size`, which bounds and is attained by the story
lengths of nonempty data). -/
theorem max_num_sentences_spec (flag : ℤ) (data : List Example) (hdata : data ≠ []) :
    (flag = -1 → max_num_sentences flag (max_story_size data) = (max_story_size data : ℤ)) ∧
    (flag ≠ -1 →
      max_num_sentences flag (max_story_size data) = min flag (max_story_size data : ℤ)) ∧
    max_num_sentences flag (max_story_size data) ≤ (max_story_size data : ℤ) ∧
    (∀ x ∈ data, x.1.length ≤ max_story_size data) ∧
    (∃ x ∈ data, max_story_size data = x.1.length) := by
  refine ⟨fun h => by simp [max_num_sentences, h],
          fun h => by simp [max_num_sentences, h], ?_, ?_, ?_⟩
  · unfold max_num_sentences
    split
    · exact le_refl _
    · exact min_le_right _ _
  · intro x hx
    exact mem_le_foldl_max _ 0 _ (List.mem_map_of_mem (fun y => y.1.length) hx)
  · rcases foldl_max_mem (data.map (fun x => x.1.length)) 0 with h | h
    · rcases data with _ | ⟨d, ds⟩
      · exact absurd rfl hdata
      · refine ⟨d, List.mem_cons_self d ds, ?_⟩
        have hle : d.1.length ≤ max_story_size (d :: ds) :=
          mem_le_foldl_max _ 0 _
            (List.mem_map_of_mem (fun y => y.1.length) (List.mem_cons_self d ds))
        have h0 : max_story_size (d :: ds) = 0 := h
        omega
    · rcases List.mem_map.mp h with ⟨x, hx, hxe⟩
      exact ⟨x, hx, hxe.symm⟩

/-- Witness for C9 at flag `5` on the one-example data set `exData`
(longest story: 2 sentences). -/
theorem max_num_sentences_spec_witness :
    max_num_sentences 5 (max_story_size exData) = min 5 (max_story_size exData : ℤ) ∧
    max_num_sentences 5 (max_story_size exData) ≤ (max_story_size exData : ℤ) ∧
    (∃ x ∈ exData, max_story_size exData = x.1.length) :=
  ⟨(max_num_sentences_spec 5 exData (by decide)).2.1 (by decide),
   (max_num_sentences_spec 5 exData (by decide)).2.2.1,
   (max_num_sentences_spec 5 exData (by decide)).2.2.2.2⟩

/-- Every padded row has exactly the requested length. -/
theorem padRow_length (n : ℕ) (row : List ℕ) : (padRow n row).length = n := by
  simp only [padRow, List.length_append, List.length_take, List.length_replicate]
  omega

/-- C10: stories and queries share the single per-row word length
`max_words = max(longest sentence length + 1, longest query length)` (the
`+1` reserving the time-word slot): `max_words` bounds every sentence
length plus one and every query length, is attained by one of them on
nonempty data, and every vectorized story-sentence row and query row has
exactly `max_words` entries. -/
theorem max_words_spec (data : List Example) (widx : String → ℕ) (maxn : ℕ) :
    max_words data = max (max_sentence_size data) (max_query_size data) ∧
    (∀ x ∈ data, ∀ sent ∈ x.1, sent.length + 1 ≤ max_words data) ∧
    (∀ x ∈ data, x.2.1.length ≤ max_words data) ∧
    (∀ rows ∈ (vectorize_data widx maxn (max_words data) (max_words data) data).1,
      ∀ row ∈ rows, row.length = max_words data) ∧
    (∀ qrow ∈ (vectorize_data widx maxn (max_words data) (max_words data) data).2,
      qrow.length = max_words data) ∧
    (data ≠ [] → (data.map (fun x => x.1)).flatten ≠ [] →
      (∃ s ∈ (data.map (fun x => x.1)).flatten, max_words data = s.length + 1) ∨
      (∃ x ∈ data, max_words data = x.2.1.length)) := by
  refine ⟨rfl, ?_, ?_, ?_, ?_, ?_⟩
  · intro x hx sent hs
    have hmem : sent ∈ (data.map (fun y => y.1)).flatten :=
      List.mem_flatten.mpr ⟨x.1, List.mem_map_of_mem (fun y => y.1) hx, hs⟩
    have hlen : sent.length ≤
        (((data.map (fun y => y.1)).flatten).map List.length).foldl Nat.max 0 :=
      mem_le_foldl_max _ 0 _ (List.mem_map_of_mem List.length hmem)
    calc sent.length + 1
        ≤ max_sentence_size data := by unfold max_sentence_size; omega
      _ ≤ max_words data := le_max_left _ _
  · intro x hx
    calc x.2.1.length
        ≤ max_query_size data :=
          mem_le_foldl_max _ 0 _ (List.mem_map_of_mem (fun y => y.2.1.length) hx)
      _ ≤ max_words data := le_max_right _ _
  · intro rows hrows row hrow
    rcases List.mem_map.mp hrows with ⟨x, _, hxe⟩
    subst hxe
    rcases List.mem_append.mp hrow with h | h
    · rcases List.mem_map.mp h with ⟨sent, _, hse⟩
      rw [← hse]
      exact padRow_length _ _
    · rw [List.eq_of_mem_replicate h]
      exact List.length_replicate _ _
  · intro qrow hq
    rcases List.mem_map.mp hq with ⟨x, _, hxe⟩
    rw [← hxe]
    exact padRow_length _ _
  · intro hdata hsent
    rcases max_choice (max_sentence_size data) (max_query_size data) with h | h
    · left
      rcases foldl_max_mem (((data.map (fun y => y.1)).flatten).map List.length) 0 with
        h0 | hmem
      · rcases hflat : (data.map (fun y => y.1)).flatten with _ | ⟨s0, srest⟩
        · exact absurd hflat hsent
        · refine ⟨s0, hflat ▸ List.mem_cons_self s0 srest, ?_⟩
          have hle : s0.length ≤
              (((data.map (fun y => y.1)).flatten).map List.length).foldl Nat.max 0 :=
            mem_le_foldl_max _ 0 _
              (List.mem_map_of_mem List.length (hflat ▸ List.mem_cons_self s0 srest))
          have hmw : max_words data = max_sentence_size data := h
          unfold max_sentence_size at hmw
          omega
      · rcases List.mem_map.mp hmem with ⟨s, hs, hse⟩
        refine ⟨s, hs, ?_⟩
        have hmw : max_words data = max_sentence_size data := h
        unfold max_sentence_size at hmw
        omega
    · right
      rcases foldl_max_mem (data.map (fun y => y.2.1.length)) 0 with h0 | hmem
      · rcases data with _ | ⟨d, ds⟩
        · exact absurd rfl hdata
        · refine ⟨d, List.mem_cons_self d ds, ?_⟩
          have hle : d.2.1.length ≤ max_query_size (d :: ds) :=
            mem_le_foldl_max _ 0 _
              (List.mem_map_of_mem (fun y => y.2.1.length) (List.mem_cons_self d ds))
          have hq0 : max_query_size (d :: ds) = 0 := h0
          have hmw : max_words (d :: ds) = max_query_size (d :: ds) := h
          omega
      · rcases List.mem_map.mp hmem with ⟨x, hx, hxe⟩
        refine ⟨x, hx, ?_⟩
        have hmw : max_words data = max_query_size data := h
        unfold max_query_size at hmw
        rw [hmw]
        exact hxe.symm

/-- Witness for C10 on `exData` (longest sentence: 2 words, so
`max_words = max(2+1, 3) = 3`), with the constant word-index map. -/
theorem max_words_spec_witness :
    ((∃ s ∈ (exData.map (fun x => x.1)).flatten, max_words exData = s.length + 1) ∨
      (∃ x ∈ exData, max_words exData = x.2.1.length)) ∧
    (∀ qrow ∈ (vectorize_data (fun _ => 1) 2 (max_words exData) (max_words exData) exData).2,
      qrow.length = max_words exData) :=
  ⟨(max_words_spec exData (fun _ => 1) 2).2.2.2.2.2 (by decide) (by decide),
   (max_words_spec exData (fun _ => 1) 2).2.2.2.2.1⟩

/-- Inserting into a Python-style dict makes the inserted key map to the
inserted value. -/
theorem dictLookup_dictInsert_self (l : List (String × WVal)) (k : String) (v : WVal) :
    dictLookup (dictInsert l k v) k = some v := by
  induction l with
  | nil => simp [dictInsert, dictLookup]
  | cons p ps ih =>
    by_cases hp : p.1 = k
    · simp [dictInsert, hp, dictLookup]
    · simp only [dictInsert, if_neg hp, dictLookup]
      exact ih

/-- Inserting into a Python-style dict leaves other keys unchanged. -/
theorem dictLookup_dictInsert_ne (l : List (String × WVal)) (k k' : String)
    (v : WVal) (hne : k' ≠ k) :
    dictLookup (dictInsert l k v) k' = dictLookup l k' := by
  induction l with
  | nil => simp [dictInsert, dictLookup, Ne.symm hne]
  | cons p ps ih =>
    by_cases hp : p.1 = k
    · simp [dictInsert, hp, dictLookup, Ne.symm hne]
    · simp only [dictInsert, if_neg hp, dictLookup]
      rw [ih]

/-- A key already mapped to `inr` of itself keeps that binding across the
time-word insertion loop (each insertion stores `inr` of its own key, so a
colliding insertion rewrites the same value). -/
theorem dictLookup_foldl_time (l : List ℕ) :
    ∀ (d : List (String × WVal)) (k : String), dictLookup d k = some (Sum.inr k) →
      dictLookup
        (l.foldl (fun d2 i => dictInsert d2 (timeWord (i + 1)) (Sum.inr (timeWord (i + 1)))) d)
        k = some (Sum.inr k) := by
  induction l with
  | nil => intro d k h; exact h
  | cons j js ih =>
    intro d k h
    apply ih
    by_cases hk : timeWord (j + 1) = k
    · subst hk
      exact dictLookup_dictInsert_self d _ _
    · rw [dictLookup_dictInsert_ne d _ k _ (fun h2 => hk h2.symm)]
      exact h

/-- After the time-word insertion loop over any index list containing `j`,
the time word for `j + 1` maps to its own token string. -/
theorem dictLookup_foldl_time_mem (l : List ℕ) :
    ∀ (d : List (String × WVal)) (j : ℕ), j ∈ l →
      dictLookup
        (l.foldl (fun d2 i => dictInsert d2 (timeWord (i + 1)) (Sum.inr (timeWord (i + 1)))) d)
        (timeWord (j + 1)) = some (Sum.inr (timeWord (j + 1))) := by
  induction l with
  | nil => intro d j hj; cases hj
  | cons a as ih =>
    intro d j hj
    rcases List.mem_cons.mp hj with h | h
    · subst h
      exact dictLookup_foldl_time as _ _ (dictLookup_dictInsert_self d _ _)
    · exact ih _ j h

/-- Looking up a vocabulary member in the enumeration dictionary yields an
integer index strictly above the enumeration start. -/
theorem enumAssoc_lookup (l : List String) :
    ∀ (i : ℕ) (w : String), w ∈ l →
      ∃ n, dictLookup (enumAssoc i l) w = some (Sum.inl n) ∧ i + 1 ≤ n ∧ n ≤ i + l.length := by
  induction l with
  | nil => intro i w hw; cases hw
  | cons c cs ih =>
    intro i w hw
    simp only [enumAssoc, dictLookup]
    by_cases hc : c = w
    · exact ⟨i + 1, by rw [if_pos hc], le_refl _, by simp only [List.length_cons]; omega⟩
    · rw [if_neg hc]
      have hw' : w ∈ cs := List.mem_of_ne_of_mem (fun h => hc h.symm) hw
      rcases ih (i + 1) w hw' with ⟨n, hn, hn1, hn2⟩
      exact ⟨n, hn, by omega, by simp only [List.length_cons]; omega⟩

/-- Distinct members of a duplicate-free vocabulary receive distinct
indices in the enumeration dictionary. -/
theorem enumAssoc_lookup_inj (l : List String) :
    ∀ (i : ℕ) (w1 w2 : String), l.Nodup → w1 ∈ l → w2 ∈ l → w1 ≠ w2 →
      dictLookup (enumAssoc i l) w1 ≠ dictLookup (enumAssoc i l) w2 := by
  induction l with
  | nil => intro i w1 w2 _ h1 _ _; cases h1
  | cons c cs ih =>
    intro i w1 w2 hnd h1 h2 hne
    have hnd' := (List.nodup_cons.mp hnd).2
    simp only [enumAssoc, dictLookup]
    by_cases hc1 : c = w1
    · have hc2 : ¬ c = w2 := fun h => hne (by rw [← hc1, h])
      rw [if_pos hc1, if_neg hc2]
      have hw2 : w2 ∈ cs := List.mem_of_ne_of_mem (fun h => hc2 h.symm) h2
      rcases enumAssoc_lookup cs (i + 1) w2 hw2 with ⟨n, hn, hn1, _⟩
      rw [hn]
      intro hcontra
      simp only [Option.some.injEq, Sum.inl.injEq] at hcontra
      omega
    · by_cases hc2 : c = w2
      · rw [if_pos hc2, if_neg hc1]
        have hw1 : w1 ∈ cs := List.mem_of_ne_of_mem (fun h => hc1 h.symm) h1
        rcases enumAssoc_lookup cs (i + 1) w1 hw1 with ⟨n, hn, hn1, _⟩
        rw [hn]
        intro hcontra
        simp only [Option.some.injEq, Sum.inl.injEq] at hcontra
        omega
      · rw [if_neg hc1, if_neg hc2]
        exact ih (i + 1) w1 w2 hnd'
          (List.mem_of_ne_of_mem (fun h => hc1 h.symm) h1)
          (List.mem_of_ne_of_mem (fun h => hc2 h.symm) h2) hne

/-- Sorted insertion is a permutation of consing. -/
theorem insertSorted_perm (a : String) (l : List String) :
    List.Perm (insertSorted a l) (a :: l) := by
  induction l with
  | nil => exact List.Perm.refl _
  | cons b bs ih =>
    unfold insertSorted
    split
    · exact List.Perm.refl _
    · exact List.Perm.trans (List.Perm.cons b ih) (List.Perm.swap a b bs)

/-- Sorting the vocabulary is a permutation. -/
theorem sortStrings_perm (l : List String) : List.Perm (sortStrings l) l := by
  induction l with
  | nil => exact List.Perm.refl _
  | cons a as ih =>
    exact List.Perm.trans (insertSorted_perm a (sortStrings as)) (List.Perm.cons a ih)

/-- The sorted deduplicated vocabulary has no duplicates. -/
theorem vocab_nodup (data : List Example) : (vocab data).Nodup :=
  ((sortStrings_perm (allWords data).dedup).nodup_iff).mpr (List.nodup_dedup _)

/-- Every word of the data appears in the sorted deduplicated vocabulary. -/
theorem mem_vocab_of_mem_allWords {data : List Example} {w : String}
    (hw : w ∈ allWords data) : w ∈ vocab data :=
  ((sortStrings_perm (allWords data).dedup).mem_iff).mpr (List.mem_dedup.mpr hw)

/-- C5 (amended): `word_idx` assigns every distinct word of the combined
train+test data a distinct integer index `≥ 1` (index 0 is the reserved nil
token); after the time-word loop it contains the key `time{i}` for every
`i` in `1..max_num_sentences`, each mapped to the token string itself (the
loop stores the string, not an integer index); `vocab_size` equals
`len(word_idx) + 1`; and the output layer produces a logit vector of
exactly `vocab_size` entries per example. -/
theorem word_idx_spec (data : List Example) (maxn : ℕ) {e : ℕ}
    (W : ℕ → Vec e → ℚ) (x : Vec e) :
    (∀ w1 ∈ allWords data, ∀ w2 ∈ allWords data, w1 ≠ w2 →
      dictLookup (word_idx_base data) w1 ≠ dictLookup (word_idx_base data) w2) ∧
    (∀ w ∈ allWords data,
      ∃ n, dictLookup (word_idx_base data) w = some (Sum.inl n) ∧ 1 ≤ n) ∧
    (∀ i, 1 ≤ i → i ≤ maxn →
      dictLookup (word_idx data maxn) (timeWord i) = some (Sum.inr (timeWord i))) ∧
    vocab_size data maxn = (word_idx data maxn).length + 1 ∧
    (denseLogits (vocab_size data maxn) W x).length = vocab_size data maxn := by
  refine ⟨?_, ?_, ?_, rfl, by simp [denseLogits]⟩
  · intro w1 hw1 w2 hw2 hne
    exact enumAssoc_lookup_inj (vocab data) 0 w1 w2 (vocab_nodup data)
      (mem_vocab_of_mem_allWords hw1) (mem_vocab_of_mem_allWords hw2) hne
  · intro w hw
    rcases enumAssoc_lookup (vocab data) 0 w (mem_vocab_of_mem_allWords hw) with
      ⟨n, hn, hn1, _⟩
    exact ⟨n, hn, hn1⟩
  · intro i h1 hi
    have hj : i - 1 ∈ List.range maxn := List.mem_range.mpr (by omega)
    have h := dictLookup_foldl_time_mem (List.range maxn) (word_idx_base data) (i - 1) hj
    rw [show i - 1 + 1 = i from by omega] at h
    exact h

/-- Witness for C5 (amended) on `exData` with `max_num_sentences = 2`:
the time token maps to its own string, the data word "john" maps to an
integer index `≥ 1`, and the logit vector has `vocab_size` entries. -/
theorem word_idx_spec_witness :
    dictLookup (word_idx exData 2) (timeWord 1) = some (Sum.inr (timeWord 1)) ∧
    (∃ n, dictLookup (word_idx_base exData) "john" = some (Sum.inl n) ∧ 1 ≤ n) ∧
    (denseLogits (vocab_size exData 2) (fun _ (_ : Vec 1) => (0:ℚ))
      (fun _ => 0)).length = vocab_size exData 2 :=
  ⟨(word_idx_spec exData 2 (fun _ (_ : Vec 1) => (0:ℚ)) (fun _ => 0)).2.2.1 1
      (by decide) (by decide),
   (word_idx_spec exData 2 (fun _ (_ : Vec 1) => (0:ℚ)) (fun _ => 0)).2.1 "john"
      (by decide),
   (word_idx_spec exData 2 (fun _ (_ : Vec 1) => (0:ℚ)) (fun _ => 0)).2.2.2.2⟩

/-- Counterexample to C5 as stated: on the concrete data `exData` with
`max_num_sentences = 1`, the constructed `word_idx` maps the time token
`time1` to the string `"time1"` — not to any integer index (the loop at
line 84 of `babi_task_single.py` stores `'time{}'.format(i+1)`, a string,
as the value). -/
theorem word_idx_time_not_integer :
    dictLookup (word_idx exData 1) (timeWord 1) = some (Sum.inr (timeWord 1)) ∧
    ∀ n : ℕ, dictLookup (word_idx exData 1) (timeWord 1) ≠ some (Sum.inl n) := by
  have h : dictLookup (word_idx exData 1) (timeWord 1) = some (Sum.inr (timeWord 1)) := by
    decide
  refine ⟨h, ?_⟩
  intro n hn
  rw [h] at hn
  simp at hn

end HMem
